import Mathlib

/-
Shallow embedding of the flexible-job-shop simulation core
(src/assignment/atomicdevs.py and src/assignment/environment.py).

Conventions of the embedding:
* Python floats (simulated times, durations) are modelled as rationals (ℚ);
  all arithmetic the claims touch is exact on the concrete inputs used.
* `math.inf` sentinel values (`routing_remaining`, `remaining`, `timeAdvance`)
  are modelled as `none : Option ℚ`; the kernel never fires an internal
  transition at an infinite time-advance, so the finite value is the one used.
* Python dicts keyed by machine name are modelled as total functions
  `String → _`; only the configured machine names are ever read.
* Python `raise ValueError(...)` in Machine.extTransition is modelled by
  `Except String MachineState` (the error carries the message; no state is
  produced, matching "raise before mutation of the batch").
* Python `list.remove` on Products compares by object identity (Product has
  no custom equality); here products are values and `removeFirst` removes the
  first structurally equal element.  All concrete inputs used below keep the
  two semantics in agreement (no duplicated product values).
* Python `x or y` yields `y` whenever `x` is falsy, i.e. when `x` is `None`
  but ALSO when `x == 0.0`.  `Machine._schedule_waiting` is embedded with
  exactly this semantics (see `schedule_waiting`).
-/

/-- Product (environment.py, class Product): a job with a type, a size, an
ordered recipe of machine names, a per-machine processing-time table, and the
mutable progress fields.  The constructor sets `current_step = 0`,
`flow_time = 0.0`, `router_entry_time = 0.0`, `is_spoiled = False`. -/
structure Product where
  product_type : Nat
  size : Int
  recipe : List String
  processing_times : List (String × ℚ)
  arrival_time : ℚ
  current_step : Nat
  flow_time : ℚ
  router_entry_time : ℚ
  is_spoiled : Bool
  deriving DecidableEq, Repr

/-- The two dispatch policies (subclasses FIFORouter / PriorityRouter). -/
inductive Policy where
  | fifo
  | priority
  deriving DecidableEq

/-- FIFORouter._selectProduct uses `min(ws, key=lambda p: p.arrival_time)`:
Python `min` keeps the FIRST element attaining the minimum, so an element
replaces the current best only when strictly smaller. -/
def fifoLt (q p : Product) : Bool :=
  decide (q.arrival_time < p.arrival_time)

/-- PriorityRouter._selectProduct sorts by the key
`(-p.current_step, -p.size, p.arrival_time)` and takes the head; `prioLt q p`
is the strict lexicographic order on that key, i.e. "q sorts strictly before
p": higher `current_step`, then larger `size`, then earlier `arrival_time`. -/
def prioLt (q p : Product) : Bool :=
  decide (p.current_step < q.current_step) ||
  (decide (q.current_step = p.current_step) &&
    (decide (p.size < q.size) ||
     (decide (q.size = p.size) && decide (q.arrival_time < p.arrival_time))))

/-- The strict "sorts before" test of the configured policy. -/
def policyLt : Policy → Product → Product → Bool
  | Policy.fifo => fifoLt
  | Policy.priority => prioLt

/-- One step of the running-minimum fold: replace the best only on a strictly
smaller key (this is how Python `min` behaves, and the head of Python's
STABLE `sorted` is the same first-minimal element). -/
def stepMin (lt : Product → Product → Bool) (best q : Product) : Product :=
  if lt q best then q else best

/-- `_selectProduct` of the configured router subclass: `None` on an empty
list, otherwise the first element minimal under the policy's sort key
(Python `min(ws, key=...)` for FIFO, `sorted(ws, key=...)[0]` with a stable
sort for priority — both return the first minimum). -/
def selectProduct (pol : Policy) : List Product → Option Product
  | [] => none
  | p :: ps => some (ps.foldl (stepMin (policyLt pol)) p)

/-- Router configuration: the constructor arguments of AbstractRouter plus
the subclass choice (machine_names, machine_capacities,
routing_time_per_size). -/
structure RouterCfg where
  machine_names : List String
  machine_capacities : String → Int
  routing_time_per_size : ℚ
  policy : Policy

/-- RouterState (atomicdevs.py): queue, per-machine mirrored remaining
capacity and batch type, the single in-flight dispatch slot, and the
time-weighted queue statistics. -/
structure RouterState where
  current_time : ℚ
  queue : List Product
  machine_remaining : String → Int
  machine_batch_type : String → Option Nat
  dispatch_product : Option Product
  dispatch_target : Option String
  routing_remaining : Option ℚ
  last_time : ℚ
  total_queue_area : ℚ

/-- Pointwise update of a machine-keyed mapping (Python `d[m] = v`). -/
def fupd {α : Type} (f : String → α) (k : String) (v : α) : String → α :=
  fun x => if x = k then v else f x

/-- RouterState.__init__: empty queue, `machine_remaining` initialized to the
configured capacities, no batch types, no dispatch in flight
(`routing_remaining = math.inf`, modelled as `none`), zeroed statistics. -/
def RouterState.init (cfg : RouterCfg) : RouterState :=
  { current_time := 0
    queue := []
    machine_remaining := fun m => cfg.machine_capacities m
    machine_batch_type := fun _ => none
    dispatch_product := none
    dispatch_target := none
    routing_remaining := none
    last_time := 0
    total_queue_area := 0 }

/-- RouterState.update_queue_area: accumulate queue length × elapsed time
using the length BEFORE any change, then stamp `last_time`. -/
def RouterState.update_queue_area (s : RouterState) (now : ℚ) : RouterState :=
  { s with
    total_queue_area := s.total_queue_area + (s.queue.length : ℚ) * (now - s.last_time)
    last_time := now }

/-- AbstractRouter._next_destination: `recipe[current_step]` when
`current_step < len(recipe)`, else the sink. -/
def next_destination (p : Product) : String :=
  if h : p.current_step < p.recipe.length then p.recipe.get ⟨p.current_step, h⟩
  else "SINK"

/-- AbstractRouter._eligible_for_machine: the product must need machine `m`
next, fit the mirrored remaining capacity, and match the machine's current
batch type when one is set. -/
def eligible_for_machine (s : RouterState) (p : Product) (m : String) : Bool :=
  (next_destination p == m) &&
  decide (p.size ≤ s.machine_remaining m) &&
  (match s.machine_batch_type m with
   | none => true
   | some bt => p.product_type == bt)

/-- Committing a dispatch: fill the in-flight slot and set the routing delay
`size × routing_time_per_size`.  (The source does NOT remove the chosen
product from the queue here; removal happens in intTransition.) -/
def set_dispatch (cfg : RouterCfg) (s : RouterState) (chosen : Product)
    (target : String) : RouterState :=
  { s with
    dispatch_product := some chosen
    dispatch_target := some target
    routing_remaining := some ((chosen.size : ℚ) * cfg.routing_time_per_size) }

/-- The machine scan of AbstractRouter._try_schedule_dispatch: iterate the
machines in declaration order, skip machines with no spare mirrored capacity,
and commit the policy's choice among the eligible queued products; if no
machine yields a choice, fall through to the sink scan. -/
def try_schedule_scan (cfg : RouterCfg) (s : RouterState) :
    List String → RouterState
  | [] =>
    match selectProduct cfg.policy
        (s.queue.filter (fun p => next_destination p == "SINK")) with
    | some chosen => set_dispatch cfg s chosen "SINK"
    | none => s
  | m :: ms =>
    if s.machine_remaining m ≤ 0 then try_schedule_scan cfg s ms
    else
      match selectProduct cfg.policy
          (s.queue.filter (fun p => eligible_for_machine s p m)) with
      | some chosen => set_dispatch cfg s chosen m
      | none => try_schedule_scan cfg s ms

/-- AbstractRouter._try_schedule_dispatch: a no-op when a dispatch is already
in flight, otherwise the machine scan followed by the sink scan. -/
def try_schedule_dispatch (cfg : RouterCfg) (s : RouterState) : RouterState :=
  if s.dispatch_product.isSome then s else try_schedule_scan cfg s cfg.machine_names

/-- One round of router inputs: an optional capacity notification per machine
(port `in_capacity[m]`) and an optional arriving product (port `in_product`).
The PyPDEVS list wrapping is already unwrapped. -/
structure RouterInputs where
  capacity : String → Option Int
  product : Option Product

/-- The capacity-notification loop of AbstractRouter.extTransition, iterating
the machine ports in declaration order: for each machine port present in the
inputs, overwrite `machine_remaining[m]`; when the reported value equals the
machine's full capacity the machine has emptied, so clear
`machine_batch_type[m]`. -/
def applyCapacityList (cfg : RouterCfg) (inp : RouterInputs) (s : RouterState) :
    List String → RouterState
  | [] => s
  | m :: ms =>
    match inp.capacity m with
    | none => applyCapacityList cfg inp s ms
    | some cap =>
      let s1 := { s with machine_remaining := fupd s.machine_remaining m cap }
      let s2 :=
        if cap = cfg.machine_capacities m then
          { s1 with machine_batch_type := fupd s1.machine_batch_type m none }
        else s1
      applyCapacityList cfg inp s2 ms

/-- The input-processing phase of AbstractRouter.extTransition: advance time
and the queue-area accumulator, apply capacity notifications, append an
arriving product to the queue.  (Note: the source never touches the arriving
product's fields — no `router_entry_time` or `arrival_time` stamping and no
spoilage check — and never aborts an in-flight dispatch.) -/
def AbstractRouter.extInputPhase (cfg : RouterCfg) (s : RouterState)
    (elapsed : ℚ) (inp : RouterInputs) : RouterState :=
  let now := s.current_time + elapsed
  let s1 := { s.update_queue_area now with current_time := now }
  let s2 := applyCapacityList cfg inp s1 cfg.machine_names
  match inp.product with
  | none => s2
  | some p => { s2 with queue := s2.queue ++ [p] }

/-- AbstractRouter.extTransition: the input-processing phase followed by the
dispatch attempt. -/
def AbstractRouter.extTransition (cfg : RouterCfg) (s : RouterState)
    (elapsed : ℚ) (inp : RouterInputs) : RouterState :=
  try_schedule_dispatch cfg (AbstractRouter.extInputPhase cfg s elapsed inp)

/-- AbstractRouter.timeAdvance: infinite (`none`) when idle, else the
remaining routing delay. -/
def AbstractRouter.timeAdvance (s : RouterState) : Option ℚ :=
  if s.dispatch_product.isNone then none else s.routing_remaining

/-- AbstractRouter.outputFnc: emit the held product to its destination
("SINK" or a machine name); nothing when idle. -/
def AbstractRouter.outputFnc (s : RouterState) : Option (String × Product) :=
  match s.dispatch_product, s.dispatch_target with
  | some p, some t => some (t, p)
  | _, _ => none

/-- Python `list.remove` wrapped in try/except ValueError: remove the first
matching element, no-op when absent. -/
def removeFirst (l : List Product) (p : Product) : List Product :=
  match l with
  | [] => []
  | q :: qs => if q = p then qs else q :: removeFirst qs p

/-- The delivery phase of AbstractRouter.intTransition: advance time by the
(finite) time-advance, update the queue-area accumulator, remove the
delivered product from the queue, update the destination machine's mirrored
bookkeeping (set batch type if newly started, decrement remaining capacity
clamped at zero), and clear the in-flight slot. -/
def AbstractRouter.intDeliverPhase (s : RouterState) : RouterState :=
  let now := s.current_time + (AbstractRouter.timeAdvance s).getD 0
  let s1 := { s.update_queue_area now with current_time := now }
  let s2 :=
    match s1.dispatch_product, s1.dispatch_target with
    | some p, some t =>
      let sq := { s1 with queue := removeFirst s1.queue p }
      if t ≠ "SINK" then
        let sb :=
          match sq.machine_batch_type t with
          | none =>
            let bt2 := fupd sq.machine_batch_type t (some p.product_type)
            { sq with machine_batch_type := bt2 }
          | some _ => sq
        let mr2 := fupd sb.machine_remaining t (max 0 (sb.machine_remaining t - p.size))
        { sb with machine_remaining := mr2 }
      else sq
    | _, _ => s1
  { s2 with
    dispatch_product := none
    dispatch_target := none
    routing_remaining := none }

/-- AbstractRouter.intTransition: the delivery phase followed by the attempt
to schedule the next dispatch. -/
def AbstractRouter.intTransition (cfg : RouterCfg) (s : RouterState) :
    RouterState :=
  try_schedule_dispatch cfg (AbstractRouter.intDeliverPhase s)

/-- A router transition: an external transition with its elapsed time and
inputs, or an internal transition. -/
inductive RStep where
  | ext (elapsed : ℚ) (inp : RouterInputs)
  | int

/-- Apply one router transition. -/
def applyRStep (cfg : RouterCfg) (s : RouterState) : RStep → RouterState
  | RStep.ext e inp => AbstractRouter.extTransition cfg s e inp
  | RStep.int => AbstractRouter.intTransition cfg s

/-- Run a sequence of router transitions. -/
def runRouter (cfg : RouterCfg) (s : RouterState) : List RStep → RouterState
  | [] => s
  | st :: sts => runRouter cfg (applyRStep cfg s st) sts

/-- An external-transition step whose capacity notifications (if any) are all
nonnegative. -/
def stepNotificationsNonneg : RStep → Prop
  | RStep.ext _ inp => ∀ m c, inp.capacity m = some c → 0 ≤ c
  | RStep.int => True

/-- Machine modes (atomicdevs.py uses the strings "IDLE", "WAITING",
"PROCESSING"). -/
inductive MMode where
  | IDLE
  | WAITING
  | PROCESSING
  deriving DecidableEq

/-- Machine self-scheduled events (`next_event`: "START" or "FINISH"). -/
inductive MEvent where
  | START
  | FINISH
  deriving DecidableEq

/-- Machine construction parameters (machine_id, capacity,
max_wait_duration). -/
structure MachineCfg where
  machine_id : String
  capacity : Int
  max_wait_duration : ℚ

/-- MachineState: current batch, its type, mode, timing (`remaining = none`
models `math.inf`), and the utilization statistics. -/
structure MachineState where
  current_time : ℚ
  capacity : Int
  products : List Product
  batch_type : Option Nat
  mode : MMode
  first_entry_time : Option ℚ
  remaining : Option ℚ
  next_event : Option MEvent
  total_processing_time : ℚ
  total_occupancy_product : ℚ
  num_batches : Nat

/-- MachineState.usedCapacity: sum of the sizes of the batched products. -/
def MachineState.usedCapacity (s : MachineState) : Int :=
  (s.products.map Product.size).sum

/-- Machine._schedule_waiting: recompute the time until the batch starts.
If used capacity reaches the machine capacity, start immediately; otherwise
wait out the rest of `max_wait_duration` measured from the batch's first
entry.  The source computes
`waited = now - (self.state.first_entry_time or now)`: Python `or` falls
back to `now` when `first_entry_time` is `None` AND ALSO when it equals
`0.0` (zero is falsy), so a batch whose first product arrived at time 0
always gets `waited = 0` here. -/
def Machine.schedule_waiting (M : MachineCfg) (s : MachineState) :
    MachineState :=
  let now := s.current_time
  let used := s.usedCapacity
  let rem : ℚ :=
    if M.capacity ≤ used then 0
    else
      let fe : ℚ :=
        match s.first_entry_time with
        | none => now
        | some t => if t = 0 then now else t
      max 0 (M.max_wait_duration - (now - fe))
  { s with remaining := some rem, next_event := some MEvent.START }

/-- Machine.extTransition: advance time; on an arriving product, fail when
PROCESSING ("received product while processing"), fail on a batch-type
mismatch ("mixed product types") — both BEFORE the product is appended —
otherwise set the batch type if the batch was empty, append the product,
move IDLE → WAITING stamping `first_entry_time`, and recompute the wait
timer via `schedule_waiting`.  Python `raise ValueError` is modelled as
`Except.error` carrying the message. -/
def Machine.extTransition (M : MachineCfg) (s : MachineState) (elapsed : ℚ)
    (inp : Option Product) : Except String MachineState :=
  let s0 := { s with current_time := s.current_time + elapsed }
  match inp with
  | none => Except.ok s0
  | some prod =>
    if s0.mode = MMode.PROCESSING then
      Except.error ("Machine " ++ M.machine_id ++
        " received product while processing. Router bug.")
    else
      match s0.batch_type with
      | some bt =>
        if prod.product_type ≠ bt then
          Except.error ("Machine " ++ M.machine_id ++ " mixed product types " ++
            toString bt ++ " and " ++ toString prod.product_type ++ ". Router bug.")
        else
          let s1 := { s0 with products := s0.products ++ [prod] }
          let s2 :=
            if s1.mode = MMode.IDLE then
              { s1 with mode := MMode.WAITING, first_entry_time := some s1.current_time }
            else s1
          Except.ok (Machine.schedule_waiting M s2)
      | none =>
        let sbt := { s0 with batch_type := some prod.product_type }
        let s1 := { sbt with products := sbt.products ++ [prod] }
        let s2 :=
          if s1.mode = MMode.IDLE then
            { s1 with mode := MMode.WAITING, first_entry_time := some s1.current_time }
          else s1
        Except.ok (Machine.schedule_waiting M s2)

/-
Concrete sample data used to instantiate the claims: a single machine "A"
with capacity 3 (the source's baseline configuration has capacities 3 and 2,
runner.py), the default routing rate 30.0, and products matching the
generator's type table shapes (environment.py / runner.py).
-/

/-- A FIFO router over the single machine "A" with capacity 3 and the default
routing rate 30.0. -/
def cfg0 : RouterCfg :=
  { machine_names := ["A"]
    machine_capacities := fun _ => 3
    routing_time_per_size := 30
    policy := Policy.fifo }

/-- A freshly generated product of type 0, size 1, recipe ["A"], as the
Generator constructs it (current_step = 0, arrival_time = 0,
router_entry_time = 0, is_spoiled = False). -/
def p0 : Product :=
  { product_type := 0
    size := 1
    recipe := ["A"]
    processing_times := [("A", 900)]
    arrival_time := 0
    current_step := 0
    flow_time := 0
    router_entry_time := 0
    is_spoiled := false }

/-- A product that has completed its first recipe step on machine "B" and
now needs machine "A" (current_step = 1), last entered the router at time 0
and never spoiled. -/
def pStale : Product :=
  { product_type := 0
    size := 1
    recipe := ["B", "A"]
    processing_times := [("A", 900), ("B", 600)]
    arrival_time := 0
    current_step := 1
    flow_time := 0
    router_entry_time := 0
    is_spoiled := false }

/-- Router state holding only `pStale` in the queue, no dispatch in flight.
By time 1000000 the product will have waited 1000000 time units in the
router — beyond any finite spoilage threshold. -/
def staleState : RouterState :=
  { RouterState.init cfg0 with queue := [pStale] }

/-- A product carrying distinctive construction-time stamps
(router_entry_time = 3, arrival_time = 7), used to observe that the router
does not restamp them on entry. -/
def pC3 : Product :=
  { product_type := 0
    size := 1
    recipe := ["A"]
    processing_times := [("A", 900)]
    arrival_time := 7
    current_step := 0
    flow_time := 0
    router_entry_time := 3
    is_spoiled := false }

/-- Router state with a dispatch in flight: `p0` (size 1) committed to
machine "A", routing delay 30 remaining, while "A" still has mirrored spare
capacity 2. -/
def rcState : RouterState :=
  { current_time := 0
    queue := [p0]
    machine_remaining := fun _ => 2
    machine_batch_type := fun _ => none
    dispatch_product := some p0
    dispatch_target := some "A"
    routing_remaining := some 30
    last_time := 0
    total_queue_area := 0 }

/-- Inputs carrying only a capacity notification of 0 from machine "A" (the
machine announced it has started processing, as in Machine.outputFnc for the
START event). -/
def rcInputs : RouterInputs :=
  { capacity := fun m => if m = "A" then some 0 else none
    product := none }

/-- Inputs carrying no capacity notification and no product. -/
def emptyInputs : RouterInputs :=
  { capacity := fun _ => none, product := none }

/-- Inputs carrying only an arriving product. -/
def productInputs (p : Product) : RouterInputs :=
  { capacity := fun _ => none, product := some p }

/-- P1 of the priority test: current_step = 0, size = 3. -/
def prP1 : Product :=
  { product_type := 0
    size := 3
    recipe := ["A"]
    processing_times := [("A", 900)]
    arrival_time := 0
    current_step := 0
    flow_time := 0
    router_entry_time := 0
    is_spoiled := false }

/-- P2 of the priority test: current_step = 1, size = 1. -/
def prP2 : Product :=
  { product_type := 0
    size := 1
    recipe := ["B", "A"]
    processing_times := [("A", 900), ("B", 600)]
    arrival_time := 0
    current_step := 1
    flow_time := 0
    router_entry_time := 0
    is_spoiled := false }

/-- P1 of the FIFO test: arrival_time = 0. -/
def pf1 : Product :=
  { product_type := 0
    size := 1
    recipe := ["A"]
    processing_times := [("A", 900)]
    arrival_time := 0
    current_step := 0
    flow_time := 0
    router_entry_time := 0
    is_spoiled := false }

/-- P2 of the FIFO test: arrival_time = 5. -/
def pf2 : Product :=
  { product_type := 0
    size := 1
    recipe := ["A"]
    processing_times := [("A", 900)]
    arrival_time := 5
    current_step := 0
    flow_time := 0
    router_entry_time := 0
    is_spoiled := false }

/-- Machine "A" with capacity 2 and max_wait_duration 10. -/
def M0 : MachineCfg :=
  { machine_id := "A", capacity := 2, max_wait_duration := 10 }

/-- A size-1, type-0 product sitting in a machine batch. -/
def pm1 : Product :=
  { product_type := 0
    size := 1
    recipe := ["A"]
    processing_times := [("A", 900)]
    arrival_time := 0
    current_step := 0
    flow_time := 0
    router_entry_time := 0
    is_spoiled := false }

/-- Machine state WAITING at time 5 on a batch whose first (and only)
product entered at time 0: used capacity 1 < capacity 2. -/
def mWaitZero : MachineState :=
  { current_time := 5
    capacity := 2
    products := [pm1]
    batch_type := some 0
    mode := MMode.WAITING
    first_entry_time := some 0
    remaining := some 5
    next_event := some MEvent.START
    total_processing_time := 0
    total_occupancy_product := 0
    num_batches := 0 }

/-- Machine state PROCESSING a batch of one type-0 product. -/
def mProcessing : MachineState :=
  { current_time := 5
    capacity := 2
    products := [pm1]
    batch_type := some 0
    mode := MMode.PROCESSING
    first_entry_time := some 0
    remaining := some 900
    next_event := some MEvent.FINISH
    total_processing_time := 0
    total_occupancy_product := 0
    num_batches := 0 }

/-- Machine state WAITING at time 5 on a batch whose first product entered
at time 2 (a nonzero entry time, away from the Python falsy-zero corner). -/
def mWaitTwo : MachineState :=
  { current_time := 5
    capacity := 2
    products := [pm1]
    batch_type := some 0
    mode := MMode.WAITING
    first_entry_time := some 2
    remaining := some 7
    next_event := some MEvent.START
    total_processing_time := 0
    total_occupancy_product := 0
    num_batches := 0 }

/-- A type-1 product (mismatching a type-0 batch). -/
def pmBad : Product :=
  { product_type := 1
    size := 2
    recipe := ["B", "A"]
    processing_times := [("A", 1200), ("B", 780)]
    arrival_time := 0
    current_step := 0
    flow_time := 0
    router_entry_time := 0
    is_spoiled := false }

/-
Helper lemmas about the running-minimum fold used by both _selectProduct
implementations, and about the policy orders.
-/

/-- The running-minimum fold returns the seed or a list element. -/
theorem foldl_stepMin_mem (lt : Product → Product → Bool) :
    ∀ (l : List Product) (b : Product),
      l.foldl (stepMin lt) b = b ∨ l.foldl (stepMin lt) b ∈ l := by
  intro l
  induction l with
  | nil => intro b; exact Or.inl rfl
  | cons q qs ih =>
    intro b
    rw [List.foldl_cons]
    rcases ih (stepMin lt b q) with h | h
    · rw [h]
      unfold stepMin
      by_cases hq : lt q b = true
      · simp [hq]
      · simp [hq]
    · exact Or.inr (List.mem_cons_of_mem q h)


/-- Core property of the running-minimum fold for a transitive irreflexive
comparison: no element of the list sorts strictly before the result, and the
result either is the seed or sorts strictly before it. -/
theorem foldl_stepMin_min (lt : Product → Product → Bool)
    (htrans : ∀ a b c, lt a b = true → lt b c = true → lt a c = true)
    (hirr : ∀ a, lt a a = false) :
    ∀ (l : List Product) (b : Product),
      (∀ q ∈ l, lt q (l.foldl (stepMin lt) b) = false) ∧
      (l.foldl (stepMin lt) b = b ∨ lt (l.foldl (stepMin lt) b) b = true) := by
  intro l
  induction l with
  | nil => intro b; exact ⟨(fun q hq => by cases hq), Or.inl rfl⟩
  | cons q qs ih =>
    intro b
    rw [List.foldl_cons]
    by_cases hq : lt q b = true
    · have hstep : stepMin lt b q = q := by unfold stepMin; simp [hq]
      rw [hstep]
      obtain ⟨ihmin, ihseed⟩ := ih q
      refine ⟨?_, ?_⟩
      · intro r hr
        rcases List.mem_cons.mp hr with hrq | hrqs
        · subst hrq
          rcases ihseed with he | hlt
          · rw [he]; exact hirr r
          · by_contra hc
            rw [Bool.not_eq_false] at hc
            have hrr := htrans _ _ _ hc hlt
            rw [hirr] at hrr
            exact Bool.false_ne_true hrr
        · exact ihmin r hrqs
      · rcases ihseed with he | hlt
        · rw [he]; exact Or.inr hq
        · exact Or.inr (htrans _ _ _ hlt hq)
    · have hstep : stepMin lt b q = b := by unfold stepMin; simp [hq]
      rw [hstep]
      obtain ⟨ihmin, ihseed⟩ := ih b
      refine ⟨?_, ihseed⟩
      intro r hr
      rcases List.mem_cons.mp hr with hrq | hrqs
      · subst hrq
        rcases ihseed with he | hlt
        · rw [he]; exact Bool.eq_false_iff.mpr hq
        · by_contra hc
          rw [Bool.not_eq_false] at hc
          have hrb := htrans _ _ _ hc hlt
          rw [Bool.eq_false_iff.mpr hq] at hrb
          exact Bool.false_ne_true hrb
      · exact ihmin r hrqs

/-- First-position property of the running-minimum fold: for a comparison
that is transitive and "connected" (lt a c implies lt a b or lt b c), the
result either is the seed with nothing in the list before it, or it occurs
in the list with the seed and every element earlier in the list strictly
after it. -/
theorem foldl_stepMin_first (lt : Product → Product → Bool)
    (htrans : ∀ a b c, lt a b = true → lt b c = true → lt a c = true)
    (hconn : ∀ a b c, lt a c = true → lt a b = true ∨ lt b c = true) :
    ∀ (l : List Product) (b : Product),
      ∃ R, l.foldl (stepMin lt) b = R ∧
        ((R = b ∧ ∀ q ∈ l, lt q b = false) ∨
         (lt R b = true ∧ ∃ l1 l2, l = l1 ++ R :: l2 ∧ ∀ q ∈ l1, lt R q = true)) := by
  intro l
  induction l with
  | nil =>
    intro b
    exact ⟨b, rfl, Or.inl ⟨rfl, fun q hq => by cases hq⟩⟩
  | cons q qs ih =>
    intro b
    by_cases hq : lt q b = true
    · have hstep : stepMin lt b q = q := by unfold stepMin; simp [hq]
      obtain ⟨R, hR, hcase⟩ := ih q
      refine ⟨R, by rw [List.foldl_cons, hstep]; exact hR, Or.inr ?_⟩
      rcases hcase with ⟨heq, hmin⟩ | ⟨hlt, l1, l2, hsplit, hpre⟩
      · subst heq
        exact ⟨hq, [], qs, rfl, fun r hr => by cases hr⟩
      · refine ⟨htrans _ _ _ hlt hq, q :: l1, l2, ?_, ?_⟩
        · rw [hsplit]; rfl
        · intro r hr
          rcases List.mem_cons.mp hr with hrq | hrl1
          · subst hrq; exact hlt
          · exact hpre r hrl1
    · have hstep : stepMin lt b q = b := by unfold stepMin; simp [hq]
      obtain ⟨R, hR, hcase⟩ := ih b
      refine ⟨R, by rw [List.foldl_cons, hstep]; exact hR, ?_⟩
      rcases hcase with ⟨heq, hmin⟩ | ⟨hlt, l1, l2, hsplit, hpre⟩
      · refine Or.inl ⟨heq, ?_⟩
        intro r hr
        rcases List.mem_cons.mp hr with hrq | hrqs
        · subst hrq; exact Bool.eq_false_iff.mpr hq
        · exact hmin r hrqs
      · refine Or.inr ⟨hlt, q :: l1, l2, ?_, ?_⟩
        · rw [hsplit]; rfl
        · intro r hr
          rcases List.mem_cons.mp hr with hrq | hrl1
          · subst hrq
            rcases hconn _ r _ hlt with h1 | h2
            · exact h1
            · rw [Bool.eq_false_iff.mpr hq] at h2
              exact absurd h2 Bool.false_ne_true
          · exact hpre r hrl1

/-- A product selected by either policy is an element of the input list. -/
theorem selectProduct_mem (pol : Policy) (ws : List Product) (p : Product)
    (h : selectProduct pol ws = some p) : p ∈ ws := by
  cases ws with
  | nil => simp [selectProduct] at h
  | cons b t =>
    simp only [selectProduct, Option.some.injEq] at h
    rcases foldl_stepMin_mem (policyLt pol) t b with hm | hm
    · rw [h] at hm; rw [hm]; exact List.mem_cons_self b t
    · rw [h] at hm; exact List.mem_cons_of_mem b hm

/-- The FIFO comparison (strictly earlier arrival) is transitive. -/
theorem fifoLt_trans : ∀ a b c, fifoLt a b = true → fifoLt b c = true →
    fifoLt a c = true := by
  intro a b c hab hbc
  simp only [fifoLt, decide_eq_true_eq] at hab hbc ⊢
  linarith

/-- The FIFO comparison is irreflexive. -/
theorem fifoLt_irrefl : ∀ a, fifoLt a a = false := by
  intro a
  simp [fifoLt]

/-- The FIFO comparison is connected: a < c implies a < b or b < c. -/
theorem fifoLt_conn : ∀ a b c, fifoLt a c = true →
    fifoLt a b = true ∨ fifoLt b c = true := by
  intro a b c hac
  simp only [fifoLt, decide_eq_true_eq] at hac ⊢
  by_cases h : a.arrival_time < b.arrival_time
  · exact Or.inl h
  · exact Or.inr (lt_of_le_of_lt (not_lt.mp h) hac)

/-- The priority comparison (lexicographic on higher step, larger size,
earlier arrival) is transitive. -/
theorem prioLt_trans : ∀ a b c, prioLt a b = true → prioLt b c = true →
    prioLt a c = true := by
  intro a b c hab hbc
  simp only [prioLt, Bool.or_eq_true, Bool.and_eq_true, decide_eq_true_eq]
    at hab hbc ⊢
  rcases hab with h1 | ⟨he1, h1⟩
  · rcases hbc with h2 | ⟨he2, h2⟩
    · exact Or.inl (lt_trans h2 h1)
    · exact Or.inl (by omega)
  · rcases hbc with h2 | ⟨he2, h2⟩
    · exact Or.inl (by omega)
    · refine Or.inr ⟨by omega, ?_⟩
      rcases h1 with hs1 | ⟨hse1, ha1⟩
      · rcases h2 with hs2 | ⟨hse2, ha2⟩
        · exact Or.inl (lt_trans hs2 hs1)
        · exact Or.inl (by omega)
      · rcases h2 with hs2 | ⟨hse2, ha2⟩
        · exact Or.inl (by omega)
        · exact Or.inr ⟨by omega, by linarith⟩

/-- The priority comparison is irreflexive. -/
theorem prioLt_irrefl : ∀ a, prioLt a a = false := by
  intro a
  simp [prioLt]

/-- The priority comparison is connected: a before c implies a before b or
b before c. -/
theorem prioLt_conn : ∀ a b c, prioLt a c = true →
    prioLt a b = true ∨ prioLt b c = true := by
  intro a b c hac
  simp only [prioLt, Bool.or_eq_true, Bool.and_eq_true, decide_eq_true_eq]
    at hac ⊢
  rcases hac with hs | ⟨hse, hinner⟩
  · by_cases hb : b.current_step < a.current_step
    · exact Or.inl (Or.inl hb)
    · exact Or.inr (Or.inl (by omega))
  · by_cases hb1 : b.current_step < a.current_step
    · exact Or.inl (Or.inl hb1)
    · by_cases hb2 : a.current_step < b.current_step
      · exact Or.inr (Or.inl (by omega))
      · have hbe : a.current_step = b.current_step := by omega
        rcases hinner with hsz | ⟨hsze, harr⟩
        · by_cases hbs : b.size < a.size
          · exact Or.inl (Or.inr ⟨hbe, Or.inl hbs⟩)
          · exact Or.inr (Or.inr ⟨by omega, Or.inl (by omega)⟩)
        · by_cases hbs1 : b.size < a.size
          · exact Or.inl (Or.inr ⟨hbe, Or.inl hbs1⟩)
          · by_cases hbs2 : a.size < b.size
            · exact Or.inr (Or.inr ⟨by omega, Or.inl (by omega)⟩)
            · have hbse : a.size = b.size := by omega
              by_cases harb : a.arrival_time < b.arrival_time
              · exact Or.inl (Or.inr ⟨hbe, Or.inr ⟨hbse, harb⟩⟩)
              · refine Or.inr (Or.inr ⟨by omega, Or.inr ⟨by omega, ?_⟩⟩)
                exact lt_of_le_of_lt (not_lt.mp harb) harr

/-
Field-preservation lemmas about the router transition phases.
-/

/-- The dispatch scan never modifies the queue. -/
theorem try_schedule_scan_queue (cfg : RouterCfg) (s : RouterState) :
    ∀ ms : List String, (try_schedule_scan cfg s ms).queue = s.queue := by
  intro ms
  induction ms with
  | nil =>
    unfold try_schedule_scan
    cases selectProduct cfg.policy
        (s.queue.filter (fun p => next_destination p == "SINK")) with
    | none => rfl
    | some chosen => rfl
  | cons m ms ih =>
    unfold try_schedule_scan
    by_cases hm : s.machine_remaining m ≤ 0
    · simp only [hm, if_pos]; exact ih
    · simp only [hm, if_neg, not_false_iff]
      cases selectProduct cfg.policy
          (s.queue.filter (fun p => eligible_for_machine s p m)) with
      | none => exact ih
      | some chosen => rfl

/-- The dispatch scan never modifies the mirrored machine capacities. -/
theorem try_schedule_scan_machine_remaining (cfg : RouterCfg) (s : RouterState) :
    ∀ ms : List String,
      (try_schedule_scan cfg s ms).machine_remaining = s.machine_remaining := by
  intro ms
  induction ms with
  | nil =>
    unfold try_schedule_scan
    cases selectProduct cfg.policy
        (s.queue.filter (fun p => next_destination p == "SINK")) with
    | none => rfl
    | some chosen => rfl
  | cons m ms ih =>
    unfold try_schedule_scan
    by_cases hm : s.machine_remaining m ≤ 0
    · simp only [hm, if_pos]; exact ih
    · simp only [hm, if_neg, not_false_iff]
      cases selectProduct cfg.policy
          (s.queue.filter (fun p => eligible_for_machine s p m)) with
      | none => exact ih
      | some chosen => rfl

/-- The dispatch scan either leaves the in-flight slot as it was or fills it
with some member of the queue. -/
theorem try_schedule_scan_dispatch (cfg : RouterCfg) (s : RouterState) :
    ∀ ms : List String,
      (try_schedule_scan cfg s ms).dispatch_product = s.dispatch_product ∨
      ∃ p, (try_schedule_scan cfg s ms).dispatch_product = some p ∧
        p ∈ s.queue := by
  intro ms
  induction ms with
  | nil =>
    unfold try_schedule_scan
    cases hsel : selectProduct cfg.policy
        (s.queue.filter (fun p => next_destination p == "SINK")) with
    | none => exact Or.inl rfl
    | some chosen =>
      refine Or.inr ⟨chosen, rfl, ?_⟩
      have := selectProduct_mem cfg.policy _ chosen hsel
      exact (List.mem_filter.mp this).1
  | cons m ms ih =>
    unfold try_schedule_scan
    by_cases hm : s.machine_remaining m ≤ 0
    · simp only [hm, if_pos]; exact ih
    · simp only [hm, if_neg, not_false_iff]
      cases hsel : selectProduct cfg.policy
          (s.queue.filter (fun p => eligible_for_machine s p m)) with
      | none => exact ih
      | some chosen =>
        refine Or.inr ⟨chosen, rfl, ?_⟩
        have := selectProduct_mem cfg.policy _ chosen hsel
        exact (List.mem_filter.mp this).1

/-- _try_schedule_dispatch never modifies the queue. -/
theorem try_schedule_dispatch_queue (cfg : RouterCfg) (s : RouterState) :
    (try_schedule_dispatch cfg s).queue = s.queue := by
  unfold try_schedule_dispatch
  by_cases h : s.dispatch_product.isSome
  · simp [h]
  · simp only [h, if_neg, not_false_iff, Bool.false_eq_true]
    exact try_schedule_scan_queue cfg s cfg.machine_names

/-- _try_schedule_dispatch never modifies the mirrored machine capacities. -/
theorem try_schedule_dispatch_machine_remaining (cfg : RouterCfg)
    (s : RouterState) :
    (try_schedule_dispatch cfg s).machine_remaining = s.machine_remaining := by
  unfold try_schedule_dispatch
  by_cases h : s.dispatch_product.isSome
  · simp [h]
  · simp only [h, if_neg, not_false_iff, Bool.false_eq_true]
    exact try_schedule_scan_machine_remaining cfg s cfg.machine_names

/-- _try_schedule_dispatch leaves the in-flight slot as it was or fills it
with some member of the queue. -/
theorem try_schedule_dispatch_dispatch (cfg : RouterCfg) (s : RouterState) :
    (try_schedule_dispatch cfg s).dispatch_product = s.dispatch_product ∨
    ∃ p, (try_schedule_dispatch cfg s).dispatch_product = some p ∧
      p ∈ s.queue := by
  unfold try_schedule_dispatch
  by_cases h : s.dispatch_product.isSome
  · simp [h]
  · simp only [h, if_neg, not_false_iff, Bool.false_eq_true]
    exact try_schedule_scan_dispatch cfg s cfg.machine_names

/-- The capacity-notification loop never modifies the queue. -/
theorem applyCapacityList_queue (cfg : RouterCfg) (inp : RouterInputs) :
    ∀ (ms : List String) (s : RouterState),
      (applyCapacityList cfg inp s ms).queue = s.queue := by
  intro ms
  induction ms with
  | nil => intro s; rfl
  | cons m ms ih =>
    intro s
    unfold applyCapacityList
    cases inp.capacity m with
    | none => exact ih s
    | some cap =>
      by_cases hc : cap = cfg.machine_capacities m
      · simp only [hc, if_pos]
        rw [ih]
      · simp only [hc, if_neg, not_false_iff]
        rw [ih]

/-- The capacity-notification loop never modifies the in-flight slot. -/
theorem applyCapacityList_dispatch (cfg : RouterCfg) (inp : RouterInputs) :
    ∀ (ms : List String) (s : RouterState),
      (applyCapacityList cfg inp s ms).dispatch_product = s.dispatch_product := by
  intro ms
  induction ms with
  | nil => intro s; rfl
  | cons m ms ih =>
    intro s
    unfold applyCapacityList
    cases inp.capacity m with
    | none => exact ih s
    | some cap =>
      by_cases hc : cap = cfg.machine_capacities m
      · simp only [hc, if_pos]
        rw [ih]
      · simp only [hc, if_neg, not_false_iff]
        rw [ih]

/-- The capacity-notification loop keeps every mirrored capacity entry
nonnegative when the incoming notifications are nonnegative. -/
theorem applyCapacityList_nonneg (cfg : RouterCfg) (inp : RouterInputs)
    (hcap : ∀ m c, inp.capacity m = some c → 0 ≤ c) :
    ∀ (ms : List String) (s : RouterState),
      (∀ m, 0 ≤ s.machine_remaining m) →
      ∀ m, 0 ≤ (applyCapacityList cfg inp s ms).machine_remaining m := by
  intro ms
  induction ms with
  | nil => intro s hs m; exact hs m
  | cons m ms ih =>
    intro s hs
    unfold applyCapacityList
    cases hcm : inp.capacity m with
    | none => exact ih s hs
    | some cap =>
      have hcap0 : 0 ≤ cap := hcap m cap hcm
      have hupd : ∀ k, 0 ≤ (fupd s.machine_remaining m cap) k := by
        intro k
        unfold fupd
        by_cases hk : k = m
        · simp [hk, hcap0]
        · simp [hk]; exact hs k
      dsimp only
      by_cases hc : cap = cfg.machine_capacities m
      · rw [if_pos hc]
        exact ih _ hupd
      · rw [if_neg hc]
        exact ih _ hupd

/-- Every element of `removeFirst l p` is an element of `l`. -/
theorem removeFirst_mem (p : Product) :
    ∀ (l : List Product) (q : Product), q ∈ removeFirst l p → q ∈ l := by
  intro l
  induction l with
  | nil => intro q hq; cases hq
  | cons r rs ih =>
    intro q hq
    unfold removeFirst at hq
    by_cases hr : r = p
    · simp only [hr, if_pos] at hq
      exact List.mem_cons_of_mem r hq
    · simp only [hr, if_neg, not_false_iff] at hq
      rcases List.mem_cons.mp hq with h | h
      · exact h ▸ List.mem_cons_self r rs
      · exact List.mem_cons_of_mem r (ih q h)

/-- The input phase of extTransition appends the arriving product (if any)
to the queue and changes nothing else about the queue. -/
theorem extInputPhase_queue (cfg : RouterCfg) (s : RouterState) (e : ℚ)
    (inp : RouterInputs) :
    (AbstractRouter.extInputPhase cfg s e inp).queue =
      s.queue ++ (match inp.product with | none => [] | some p => [p]) := by
  unfold AbstractRouter.extInputPhase
  cases inp.product with
  | none =>
    dsimp only
    rw [applyCapacityList_queue]
    simp [RouterState.update_queue_area]
  | some p =>
    dsimp only
    rw [applyCapacityList_queue]
    rfl

/-- The input phase of extTransition never modifies the in-flight slot. -/
theorem extInputPhase_dispatch (cfg : RouterCfg) (s : RouterState) (e : ℚ)
    (inp : RouterInputs) :
    (AbstractRouter.extInputPhase cfg s e inp).dispatch_product =
      s.dispatch_product := by
  unfold AbstractRouter.extInputPhase
  cases inp.product with
  | none =>
    dsimp only
    rw [applyCapacityList_dispatch]
    rfl
  | some p =>
    dsimp only
    show (applyCapacityList cfg inp _ cfg.machine_names).dispatch_product = _
    rw [applyCapacityList_dispatch]
    rfl

/-- The input phase of extTransition keeps every mirrored capacity entry
nonnegative when the incoming notifications are nonnegative. -/
theorem extInputPhase_nonneg (cfg : RouterCfg) (s : RouterState) (e : ℚ)
    (inp : RouterInputs) (hcap : ∀ m c, inp.capacity m = some c → 0 ≤ c)
    (hs : ∀ m, 0 ≤ s.machine_remaining m) :
    ∀ m, 0 ≤ (AbstractRouter.extInputPhase cfg s e inp).machine_remaining m := by
  unfold AbstractRouter.extInputPhase
  cases inp.product with
  | none =>
    dsimp only
    exact applyCapacityList_nonneg cfg inp hcap cfg.machine_names _ hs
  | some p =>
    dsimp only
    show ∀ m, 0 ≤ (applyCapacityList cfg inp _ cfg.machine_names).machine_remaining m
    exact applyCapacityList_nonneg cfg inp hcap cfg.machine_names _ hs

/-- The delivery phase of intTransition always clears the in-flight slot. -/
theorem intDeliverPhase_dispatch (s : RouterState) :
    (AbstractRouter.intDeliverPhase s).dispatch_product = none := rfl

/-- Every product in the queue after the delivery phase of intTransition was
already in the queue before it. -/
theorem intDeliverPhase_queue_mem (s : RouterState) :
    ∀ q ∈ (AbstractRouter.intDeliverPhase s).queue, q ∈ s.queue := by
  intro q hq
  unfold AbstractRouter.intDeliverPhase at hq
  dsimp only [RouterState.update_queue_area] at hq
  cases hdp : s.dispatch_product with
  | none =>
    rw [hdp] at hq
    dsimp only at hq
    exact hq
  | some p =>
    rw [hdp] at hq
    cases hdt : s.dispatch_target with
    | none =>
      rw [hdt] at hq
      dsimp only at hq
      exact hq
    | some t =>
      rw [hdt] at hq
      dsimp only at hq
      by_cases ht : t = "SINK"
      · rw [if_neg (by simp [ht])] at hq
        exact removeFirst_mem p _ q hq
      · rw [if_pos (by simp [ht])] at hq
        cases hbt : s.machine_batch_type t with
        | none =>
          rw [hbt] at hq
          dsimp only at hq
          exact removeFirst_mem p _ q hq
        | some bt =>
          rw [hbt] at hq
          dsimp only at hq
          exact removeFirst_mem p _ q hq

/-- The delivery phase of intTransition keeps every mirrored capacity entry
nonnegative: the decrement is clamped at zero. -/
theorem intDeliverPhase_nonneg (s : RouterState)
    (hs : ∀ m, 0 ≤ s.machine_remaining m) :
    ∀ m, 0 ≤ (AbstractRouter.intDeliverPhase s).machine_remaining m := by
  intro m
  unfold AbstractRouter.intDeliverPhase
  dsimp only [RouterState.update_queue_area]
  cases hdp : s.dispatch_product with
  | none => exact hs m
  | some p =>
    cases hdt : s.dispatch_target with
    | none => exact hs m
    | some t =>
      dsimp only
      by_cases ht : t = "SINK"
      · rw [if_neg (by simp [ht])]
        exact hs m
      · rw [if_pos (by simp [ht])]
        cases hbt : s.machine_batch_type t with
        | none =>
          dsimp only
          unfold fupd
          by_cases hm : m = t
          · simp only [hm, if_pos]
            exact le_max_left 0 _
          · simp only [hm, if_neg, not_false_iff]
            exact hs m
        | some bt =>
          dsimp only
          unfold fupd
          by_cases hm : m = t
          · simp only [hm, if_pos]
            exact le_max_left 0 _
          · simp only [hm, if_neg, not_false_iff]
            exact hs m

/-- C5: for every non-empty list of eligible waiting products, the priority
policy's _selectProduct returns a product with maximal current_step; among
those, one with maximal size; among those, one with earliest arrival_time. -/
theorem C5_priority_select (ws : List Product) (hne : ws ≠ []) :
    ∃ p, selectProduct Policy.priority ws = some p ∧ p ∈ ws ∧
      (∀ q ∈ ws, q.current_step ≤ p.current_step) ∧
      (∀ q ∈ ws, q.current_step = p.current_step → q.size ≤ p.size) ∧
      (∀ q ∈ ws, q.current_step = p.current_step → q.size = p.size →
        p.arrival_time ≤ q.arrival_time) := by
  cases ws with
  | nil => exact absurd rfl hne
  | cons b t =>
    obtain ⟨hmin, hseed⟩ :=
      foldl_stepMin_min (policyLt Policy.priority) prioLt_trans prioLt_irrefl t b
    have hall : ∀ q ∈ b :: t,
        prioLt q (t.foldl (stepMin (policyLt Policy.priority)) b) = false := by
      intro q hq
      rcases List.mem_cons.mp hq with hqb | hqt
      · subst hqb
        rcases hseed with he | hlt
        · rw [he]; exact prioLt_irrefl q
        · rw [Bool.eq_false_iff]
          intro hc
          have hqq := prioLt_trans _ _ _ hc hlt
          rw [prioLt_irrefl] at hqq
          exact Bool.false_ne_true hqq
      · exact hmin q hqt
    have hconv : ∀ q ∈ b :: t,
        q.current_step ≤ (t.foldl (stepMin (policyLt Policy.priority)) b).current_step ∧
        (q.current_step = (t.foldl (stepMin (policyLt Policy.priority)) b).current_step →
          q.size ≤ (t.foldl (stepMin (policyLt Policy.priority)) b).size ∧
          (q.size = (t.foldl (stepMin (policyLt Policy.priority)) b).size →
            (t.foldl (stepMin (policyLt Policy.priority)) b).arrival_time ≤ q.arrival_time)) := by
      intro q hq
      have h0 := hall q hq
      have h : ¬ ((t.foldl (stepMin (policyLt Policy.priority)) b).current_step < q.current_step ∨
          (q.current_step = (t.foldl (stepMin (policyLt Policy.priority)) b).current_step ∧
            ((t.foldl (stepMin (policyLt Policy.priority)) b).size < q.size ∨
              (q.size = (t.foldl (stepMin (policyLt Policy.priority)) b).size ∧
                q.arrival_time < (t.foldl (stepMin (policyLt Policy.priority)) b).arrival_time)))) := by
        intro hc
        have hT : prioLt q (t.foldl (stepMin (policyLt Policy.priority)) b) = true := by
          simp only [prioLt, Bool.or_eq_true, Bool.and_eq_true, decide_eq_true_eq]
          exact hc
        rw [h0] at hT
        exact Bool.false_ne_true hT
      push_neg at h
      exact ⟨h.1, fun he => ⟨(h.2 he).1, fun hsz => (h.2 he).2 hsz⟩⟩
    refine ⟨t.foldl (stepMin (policyLt Policy.priority)) b, rfl, ?_, ?_, ?_, ?_⟩
    · rcases foldl_stepMin_mem (policyLt Policy.priority) t b with hm | hm
      · rw [hm]; exact List.mem_cons_self b t
      · exact List.mem_cons_of_mem b hm
    · intro q hq; exact (hconv q hq).1
    · intro q hq he; exact ((hconv q hq).2 he).1
    · intro q hq he hsz; exact (((hconv q hq).2 he).2 hsz)

/-- C5 witness: with P1 (current_step 0, size 3) and P2 (current_step 1,
size 1) both waiting, the priority policy selects P2, and the selected
product satisfies the maximality properties. -/
theorem C5_priority_select_witness :
    (selectProduct Policy.priority [prP1, prP2] = some prP2) ∧
    (∃ p, selectProduct Policy.priority [prP1, prP2] = some p ∧
      p ∈ [prP1, prP2] ∧
      (∀ q ∈ [prP1, prP2], q.current_step ≤ p.current_step) ∧
      (∀ q ∈ [prP1, prP2], q.current_step = p.current_step → q.size ≤ p.size) ∧
      (∀ q ∈ [prP1, prP2], q.current_step = p.current_step → q.size = p.size →
        p.arrival_time ≤ q.arrival_time)) :=
  ⟨by decide, C5_priority_select [prP1, prP2] (by decide)⟩

/-- C6: for every non-empty list of eligible waiting products, the FIFO
policy's _selectProduct returns the product with the earliest arrival_time,
with ties broken by original list order (the first such product: everything
before its position arrived strictly later). -/
theorem C6_fifo_select (ws : List Product) (hne : ws ≠ []) :
    ∃ p l1 l2, selectProduct Policy.fifo ws = some p ∧
      ws = l1 ++ p :: l2 ∧
      (∀ q ∈ ws, p.arrival_time ≤ q.arrival_time) ∧
      (∀ q ∈ l1, p.arrival_time < q.arrival_time) := by
  have hle : ∀ a c : Product, fifoLt a c = false →
      c.arrival_time ≤ a.arrival_time := by
    intro a c h
    refine not_lt.mp ?_
    intro hc
    have hT : fifoLt a c = true := by
      simp only [fifoLt, decide_eq_true_eq]
      exact hc
    rw [h] at hT
    exact Bool.false_ne_true hT
  have hlt : ∀ a c : Product, fifoLt a c = true →
      a.arrival_time < c.arrival_time := by
    intro a c h
    simpa only [fifoLt, decide_eq_true_eq] using h
  cases ws with
  | nil => exact absurd rfl hne
  | cons b t =>
    obtain ⟨hmin, hseed⟩ :=
      foldl_stepMin_min (policyLt Policy.fifo) fifoLt_trans fifoLt_irrefl t b
    obtain ⟨R, hR, hcase⟩ :=
      foldl_stepMin_first (policyLt Policy.fifo) fifoLt_trans fifoLt_conn t b
    rw [hR] at hmin hseed
    have hselect : selectProduct Policy.fifo (b :: t) = some R := by
      simp only [selectProduct]
      exact congrArg some hR
    rcases hcase with ⟨heq, hminb⟩ | ⟨hltRb, l1, l2, hsplit, hpre⟩
    · refine ⟨R, [], t, hselect, ?_, ?_, ?_⟩
      · rw [heq]; rfl
      · intro q hq
        rcases List.mem_cons.mp hq with hqb | hqt
        · subst hqb; rw [heq]
        · exact hle q R (hmin q hqt)
      · intro q hq; cases hq
    · refine ⟨R, b :: l1, l2, hselect, ?_, ?_, ?_⟩
      · rw [hsplit]; rfl
      · intro q hq
        rcases List.mem_cons.mp hq with hqb | hqt
        · subst hqb
          exact le_of_lt (hlt R q hltRb)
        · exact hle q R (hmin q hqt)
      · intro q hq
        rcases List.mem_cons.mp hq with hqb | hql1
        · subst hqb
          exact hlt R q hltRb
        · exact hlt R q (hpre q hql1)

/-- C6 witness: with P1 (arrival_time 0) and P2 (arrival_time 5) both
waiting, the FIFO policy selects P1, and the selected product is a
first-position earliest arrival. -/
theorem C6_fifo_select_witness :
    (selectProduct Policy.fifo [pf1, pf2] = some pf1) ∧
    (∃ p l1 l2, selectProduct Policy.fifo [pf1, pf2] = some p ∧
      [pf1, pf2] = l1 ++ p :: l2 ∧
      (∀ q ∈ [pf1, pf2], p.arrival_time ≤ q.arrival_time) ∧
      (∀ q ∈ l1, p.arrival_time < q.arrival_time)) :=
  ⟨by decide, C6_fifo_select [pf1, pf2] (by decide)⟩

/-- C8: delivering a product to a machine in PROCESSING mode raises the
fatal "received product while processing" error (before the batch is
touched — the embedded transition returns only the error); in any other
mode a type-compatible product is accepted (no error) and appended to the
batch. -/
theorem C8_busy_delivery (M : MachineCfg) (s : MachineState) (e : ℚ)
    (p : Product) :
    (s.mode = MMode.PROCESSING →
      Machine.extTransition M s e (some p) =
        Except.error ("Machine " ++ M.machine_id ++
          " received product while processing. Router bug.")) ∧
    (s.mode ≠ MMode.PROCESSING →
      (s.batch_type = none ∨ s.batch_type = some p.product_type) →
      ∃ s2, Machine.extTransition M s e (some p) = Except.ok s2 ∧
        s2.products = s.products ++ [p]) := by
  constructor
  · intro hmode
    unfold Machine.extTransition
    dsimp only
    rw [if_pos hmode]
  · intro hmode hbt
    unfold Machine.extTransition
    dsimp only
    rw [if_neg hmode]
    rcases hbt with hbt | hbt
    · rw [hbt]
      dsimp only
      by_cases hidle : s.mode = MMode.IDLE
      · rw [if_pos hidle]
        exact ⟨_, rfl, rfl⟩
      · rw [if_neg hidle]
        exact ⟨_, rfl, rfl⟩
    · rw [hbt]
      dsimp only
      rw [if_neg (by simp)]
      by_cases hidle : s.mode = MMode.IDLE
      · rw [if_pos hidle]
        exact ⟨_, rfl, rfl⟩
      · rw [if_neg hidle]
        exact ⟨_, rfl, rfl⟩

/-- C8 witness: a PROCESSING machine rejects a same-type product with the
busy-delivery error, while a WAITING machine accepts it. -/
theorem C8_busy_delivery_witness :
    (Machine.extTransition M0 mProcessing 0 (some pm1) =
      Except.error
        "Machine A received product while processing. Router bug.") ∧
    (∃ s2, Machine.extTransition M0 mWaitTwo 0 (some pm1) = Except.ok s2 ∧
      s2.products = mWaitTwo.products ++ [pm1]) :=
  ⟨(C8_busy_delivery M0 mProcessing 0 pm1).1 rfl,
   (C8_busy_delivery M0 mWaitTwo 0 pm1).2 (by decide) (Or.inr rfl)⟩

/-- C9: with a non-empty batch of type t, a product of a different type is
rejected with the fatal "mixed product types" error before it is appended
(the embedded transition returns only the error, the batch unchanged); a
product of type t delivered while WAITING is appended and the wait time is
recomputed via _schedule_waiting. -/
theorem C9_type_mixing (M : MachineCfg) (s : MachineState) (e : ℚ)
    (p : Product) (t : Nat) (hne : s.products ≠ []) (hbt : s.batch_type = some t)
    (hmode : s.mode ≠ MMode.PROCESSING) :
    (p.product_type ≠ t →
      Machine.extTransition M s e (some p) =
        Except.error ("Machine " ++ M.machine_id ++ " mixed product types " ++
          toString t ++ " and " ++ toString p.product_type ++ ". Router bug.")) ∧
    (p.product_type = t → s.mode = MMode.WAITING →
      Machine.extTransition M s e (some p) =
        Except.ok (Machine.schedule_waiting M
          { s with current_time := s.current_time + e
                   products := s.products ++ [p] })) := by
  constructor
  · intro hdiff
    unfold Machine.extTransition
    dsimp only
    rw [if_neg hmode, hbt]
    dsimp only
    rw [if_pos hdiff]
  · intro hsame hwait
    unfold Machine.extTransition
    dsimp only
    rw [if_neg hmode, hbt]
    dsimp only
    rw [if_neg (by simp [hsame])]
    have hnidle : ¬ s.mode = MMode.IDLE := by rw [hwait]; intro hc; cases hc
    rw [if_neg hnidle]

/-- C9 witness: a type-0 batch rejects a type-1 product with the mixing
error; a type-0 product delivered while WAITING is appended and the wait
timer recomputed. -/
theorem C9_type_mixing_witness :
    (Machine.extTransition M0 mWaitTwo 0 (some pmBad) =
      Except.error
        "Machine A mixed product types 0 and 1. Router bug.") ∧
    (Machine.extTransition M0 mWaitTwo 0 (some pm1) =
      Except.ok (Machine.schedule_waiting M0
        { mWaitTwo with current_time := mWaitTwo.current_time + 0
                        products := mWaitTwo.products ++ [pm1] })) :=
  ⟨(C9_type_mixing M0 mWaitTwo 0 pmBad 0 (by decide) rfl (by decide)).1 (by decide),
   (C9_type_mixing M0 mWaitTwo 0 pm1 0 (by decide) rfl (by decide)).2 rfl rfl⟩

/-- C7 code evaluation at the failing input: machine capacity 2,
max_wait_duration 10, WAITING batch of used size 1 whose first product
entered at time 0, recompute at now = 5.  The code yields remaining = 10,
because Python's `(first_entry_time or now)` treats the float 0.0 as falsy
and substitutes `now`, making waited = 0.  The claim's formula
max(0, max_wait_duration − (now − first_entry_time)) yields 5 instead. -/
theorem C7_schedule_waiting_code_eval :
    (Machine.schedule_waiting M0 mWaitZero).remaining = some 10 ∧
    max (0 : ℚ) (M0.max_wait_duration -
      (mWaitZero.current_time - (0 : ℚ))) = 5 := by
  constructor
  · show (Machine.schedule_waiting M0 mWaitZero).remaining = some 10
    unfold Machine.schedule_waiting MachineState.usedCapacity
    norm_num [M0, mWaitZero, pm1]
  · show max (0 : ℚ) (10 - (5 - 0)) = 5
    norm_num

/-- C2 code evaluation at the failing input: a dispatch of p0 (size 1) is in
flight to machine "A" when a capacity notification of 0 arrives from "A".
extTransition refreshes machine_remaining["A"] to 0 — making p0 no longer
eligible for "A" — yet the in-flight dispatch is NOT aborted: the slot still
holds p0 targeting "A", and outputFnc will deliver p0 to "A" when the
routing delay elapses. -/
theorem C2_no_abort_code_eval :
    ((AbstractRouter.extTransition cfg0 rcState 0 rcInputs).machine_remaining "A" = 0) ∧
    (eligible_for_machine (AbstractRouter.extTransition cfg0 rcState 0 rcInputs) p0 "A" = false) ∧
    ((AbstractRouter.extTransition cfg0 rcState 0 rcInputs).dispatch_product = some p0) ∧
    ((AbstractRouter.extTransition cfg0 rcState 0 rcInputs).dispatch_target = some "A") ∧
    (AbstractRouter.outputFnc (AbstractRouter.extTransition cfg0 rcState 0 rcInputs) =
      some ("A", p0)) := by
  decide

/-- C1 counterexample: pStale has completed one step (current_step = 1),
is not spoiled, and last entered the router at time 0.  A transition firing
at time 1000000 gives waited = 1000000, beyond any finite spoilage
threshold — yet the router dispatches pStale to machine "A" (not the sink)
and leaves is_spoiled = false: no spoilage handling exists (and no spoilage
threshold parameter exists anywhere in the source). -/
theorem C1_counterexample :
    ((AbstractRouter.extTransition cfg0 staleState 1000000 emptyInputs).current_time = 1000000) ∧
    (pStale.current_step = 1 ∧ pStale.router_entry_time = 0 ∧ pStale.is_spoiled = false) ∧
    ((AbstractRouter.extTransition cfg0 staleState 1000000 emptyInputs).dispatch_target = some "A") ∧
    ((AbstractRouter.extTransition cfg0 staleState 1000000 emptyInputs).dispatch_product = some pStale) ∧
    (∀ q ∈ (AbstractRouter.extTransition cfg0 staleState 1000000 emptyInputs).queue,
      q.is_spoiled = false) := by
  refine ⟨?_, by decide, by decide, by decide, by decide⟩
  have h : (AbstractRouter.extTransition cfg0 staleState 1000000 emptyInputs).current_time
      = (0 : ℚ) + 1000000 := rfl
  rw [h]
  norm_num

/-- No product held by the router is marked spoiled. -/
def RouterUnspoiled (s : RouterState) : Prop :=
  (∀ p ∈ s.queue, p.is_spoiled = false) ∧
  (∀ p, s.dispatch_product = some p → p.is_spoiled = false)

/-- C1 amended: the router implements no spoilage.  Neither extTransition
nor intTransition ever sets is_spoiled (products pass through unchanged, so
a router holding only unspoiled products still holds only unspoiled products
after any transition with an unspoiled arrival), and dispatch selection is
the normal machine/sink scan regardless of waiting time. -/
theorem C1_amended_no_spoilage (cfg : RouterCfg) (s : RouterState) (e : ℚ)
    (inp : RouterInputs) (h : RouterUnspoiled s)
    (hin : ∀ p, inp.product = some p → p.is_spoiled = false) :
    RouterUnspoiled (AbstractRouter.extTransition cfg s e inp) ∧
    RouterUnspoiled (AbstractRouter.intTransition cfg s) := by
  constructor
  · have hq1 : ∀ p ∈ (AbstractRouter.extInputPhase cfg s e inp).queue,
        p.is_spoiled = false := by
      intro p hp
      rw [extInputPhase_queue] at hp
      rcases List.mem_append.mp hp with hl | hr
      · exact h.1 p hl
      · cases hip : inp.product with
        | none => rw [hip] at hr; cases hr
        | some p0 =>
          rw [hip] at hr
          rcases List.mem_cons.mp hr with he | hf
          · exact he ▸ hin p0 hip
          · cases hf
    constructor
    · intro p hp
      unfold AbstractRouter.extTransition at hp
      rw [try_schedule_dispatch_queue] at hp
      exact hq1 p hp
    · intro p hp
      unfold AbstractRouter.extTransition at hp
      rcases try_schedule_dispatch_dispatch cfg
          (AbstractRouter.extInputPhase cfg s e inp) with hd | ⟨p1, hd, hmem⟩
      · rw [hd, extInputPhase_dispatch] at hp
        exact h.2 p hp
      · rw [hd] at hp
        injection hp with hp
        exact hp ▸ hq1 p1 hmem
  · have hq1 : ∀ p ∈ (AbstractRouter.intDeliverPhase s).queue,
        p.is_spoiled = false := by
      intro p hp
      exact h.1 p (intDeliverPhase_queue_mem s p hp)
    constructor
    · intro p hp
      unfold AbstractRouter.intTransition at hp
      rw [try_schedule_dispatch_queue] at hp
      exact hq1 p hp
    · intro p hp
      unfold AbstractRouter.intTransition at hp
      rcases try_schedule_dispatch_dispatch cfg
          (AbstractRouter.intDeliverPhase s) with hd | ⟨p1, hd, hmem⟩
      · rw [hd, intDeliverPhase_dispatch] at hp
        cases hp
      · rw [hd] at hp
        injection hp with hp
        exact hp ▸ hq1 p1 hmem

/-- C1 amended witness: starting from the router holding only the unspoiled
pStale and receiving the unspoiled p0, both transitions keep every held
product unspoiled. -/
theorem C1_amended_no_spoilage_witness :
    RouterUnspoiled (AbstractRouter.extTransition cfg0 staleState 0 (productInputs p0)) ∧
    RouterUnspoiled (AbstractRouter.intTransition cfg0 staleState) :=
  C1_amended_no_spoilage cfg0 staleState 0 (productInputs p0)
    ⟨by decide, fun p hp => by cases hp⟩
    (fun p hp => by cases hp; decide)

/-- C3 counterexample: pC3 was constructed with router_entry_time = 3 and
arrival_time = 7 and arrives at the router at time 5 (its first entry into
this router).  The router appends it to the queue but stamps nothing: the
queued product still carries router_entry_time 3 ≠ 5 = current_time (and
arrival_time 7). -/
theorem C3_counterexample :
    ((AbstractRouter.extTransition cfg0 (RouterState.init cfg0) 5
        (productInputs pC3)).queue = [pC3]) ∧
    (pC3.router_entry_time = 3 ∧ pC3.arrival_time = 7) ∧
    ((AbstractRouter.extTransition cfg0 (RouterState.init cfg0) 5
        (productInputs pC3)).current_time = 5) ∧
    (pC3.router_entry_time ≠
      (AbstractRouter.extTransition cfg0 (RouterState.init cfg0) 5
        (productInputs pC3)).current_time) := by
  have hct : (AbstractRouter.extTransition cfg0 (RouterState.init cfg0) 5
      (productInputs pC3)).current_time = (0 : ℚ) + 5 := rfl
  refine ⟨by decide, by decide, ?_, ?_⟩
  · rw [hct]; norm_num
  · rw [hct]
    show (3 : ℚ) ≠ (0 : ℚ) + 5
    norm_num

/-- C3 amended: on receiving a product the router appends it to the queue
UNCHANGED — extTransition never writes router_entry_time or arrival_time
(nor any other product field); the stamps keep whatever values the product
carried (the Generator constructs both as 0). -/
theorem C3_amended_append_unchanged (cfg : RouterCfg) (s : RouterState)
    (e : ℚ) (caps : String → Option Int) (p : Product) :
    (AbstractRouter.extTransition cfg s e
        { capacity := caps, product := some p }).queue = s.queue ++ [p] := by
  unfold AbstractRouter.extTransition
  rw [try_schedule_dispatch_queue, extInputPhase_queue]

/-- C4 counterexample: the router receives p0 and immediately commits it as
the in-flight dispatch — but p0 is still an element of the queue at the same
time (the source removes it from the queue only in intTransition), so the
product is in BOTH the queue and the in-flight slot, not exactly one. -/
theorem C4_counterexample :
    ((AbstractRouter.extTransition cfg0 (RouterState.init cfg0) 0
        (productInputs p0)).dispatch_product = some p0) ∧
    (p0 ∈ (AbstractRouter.extTransition cfg0 (RouterState.init cfg0) 0
        (productInputs p0)).queue) := by
  decide

/-- Whatever product the in-flight dispatch slot holds is still an element
of the queue. -/
def InFlightInQueue (s : RouterState) : Prop :=
  ∀ p, s.dispatch_product = some p → p ∈ s.queue

/-- C4 amended: while inside the router a product always sits in the queue;
committing it as the in-flight dispatch does NOT remove it from the queue
(it is in both places until the intTransition that delivers it removes it
and clears the slot).  Both transitions preserve the invariant that the
in-flight product, when present, is an element of the queue. -/
theorem C4_amended_inflight_in_queue (cfg : RouterCfg) (s : RouterState)
    (e : ℚ) (inp : RouterInputs) (h : InFlightInQueue s) :
    InFlightInQueue (AbstractRouter.extTransition cfg s e inp) ∧
    InFlightInQueue (AbstractRouter.intTransition cfg s) := by
  constructor
  · intro p hp
    unfold AbstractRouter.extTransition at hp ⊢
    rw [try_schedule_dispatch_queue]
    rcases try_schedule_dispatch_dispatch cfg
        (AbstractRouter.extInputPhase cfg s e inp) with hd | ⟨p1, hd, hmem⟩
    · rw [hd, extInputPhase_dispatch] at hp
      rw [extInputPhase_queue]
      exact List.mem_append.mpr (Or.inl (h p hp))
    · rw [hd] at hp
      injection hp with hp
      exact hp ▸ hmem
  · intro p hp
    unfold AbstractRouter.intTransition at hp ⊢
    rw [try_schedule_dispatch_queue]
    rcases try_schedule_dispatch_dispatch cfg
        (AbstractRouter.intDeliverPhase s) with hd | ⟨p1, hd, hmem⟩
    · rw [hd, intDeliverPhase_dispatch] at hp
      cases hp
    · rw [hd] at hp
      injection hp with hp
      exact hp ▸ hmem

/-- C4 amended witness: starting from the initial router state (no dispatch
in flight) and receiving p0, both transitions preserve the
in-flight-product-still-queued invariant. -/
theorem C4_amended_inflight_in_queue_witness :
    InFlightInQueue (AbstractRouter.extTransition cfg0 (RouterState.init cfg0)
      0 (productInputs p0)) ∧
    InFlightInQueue (AbstractRouter.intTransition cfg0 (RouterState.init cfg0)) :=
  C4_amended_inflight_in_queue cfg0 (RouterState.init cfg0) 0 (productInputs p0)
    (fun p hp => by cases hp)

/-- C10: assuming every capacity notification delivered to the router is
nonnegative (and the configured capacities are), every entry of
machine_remaining stays ≥ 0 after every router transition: notifications
overwrite entries with the (nonnegative) reported value, the delivery-time
decrement in intTransition is clamped at zero by max(0, remaining − size),
and the initial entries equal the configured capacities. -/
theorem C10_machine_remaining_nonneg (cfg : RouterCfg) (steps : List RStep)
    (hcap : ∀ m, 0 ≤ cfg.machine_capacities m)
    (hsteps : ∀ st ∈ steps, stepNotificationsNonneg st) :
    (∀ m, (RouterState.init cfg).machine_remaining m = cfg.machine_capacities m) ∧
    (∀ m, 0 ≤ (runRouter cfg (RouterState.init cfg) steps).machine_remaining m) := by
  refine ⟨fun m => rfl, ?_⟩
  have hgen : ∀ (sts : List RStep) (s : RouterState),
      (∀ st ∈ sts, stepNotificationsNonneg st) →
      (∀ m, 0 ≤ s.machine_remaining m) →
      ∀ m, 0 ≤ (runRouter cfg s sts).machine_remaining m := by
    intro sts
    induction sts with
    | nil => intro s _ hs m; exact hs m
    | cons st sts ih =>
      intro s hok hs
      unfold runRouter
      apply ih
      · intro st2 h2
        exact hok st2 (List.mem_cons_of_mem st h2)
      · cases st with
        | ext e inp =>
          intro m
          unfold applyRStep AbstractRouter.extTransition
          rw [try_schedule_dispatch_machine_remaining]
          exact extInputPhase_nonneg cfg s e inp
            (hok (RStep.ext e inp) (List.mem_cons_self _ _)) hs m
        | int =>
          intro m
          unfold applyRStep AbstractRouter.intTransition
          rw [try_schedule_dispatch_machine_remaining]
          exact intDeliverPhase_nonneg s hs m
  exact hgen steps (RouterState.init cfg) hsteps (fun m => hcap m)

/-- C10 witness: from the initial state of cfg0 (capacity 3 ≥ 0), an
external transition delivering the zero-capacity notification followed by an
internal transition keeps every machine_remaining entry nonnegative, and the
initial entries equal the configured capacities. -/
theorem C10_machine_remaining_nonneg_witness :
    (∀ m, (RouterState.init cfg0).machine_remaining m = cfg0.machine_capacities m) ∧
    (∀ m, 0 ≤ (runRouter cfg0 (RouterState.init cfg0)
      [RStep.ext 0 rcInputs, RStep.int]).machine_remaining m) :=
  C10_machine_remaining_nonneg cfg0 [RStep.ext 0 rcInputs, RStep.int]
    (fun m => by show (0 : Int) ≤ 3; norm_num)
    (by
      intro st hst
      rcases List.mem_cons.mp hst with h | h
      · subst h
        intro m c hmc
        unfold rcInputs at hmc
        dsimp only at hmc
        by_cases hm : m = "A"
        · rw [if_pos hm] at hmc
          injection hmc with hmc
          omega
        · rw [if_neg hm] at hmc
          cases hmc
      · rcases List.mem_cons.mp h with h2 | h2
        · subst h2; trivial
        · cases h2)
